import Mathlib

/-!
Shallow embedding of the subscription-and-broadcast core of
`backend/main.py` (StockVibe): the subscription registry
(module-level `subscriptions` and `ws_to_symbol`), the registry
mutations performed by the websocket handler `websocket_endpoint`,
the broadcast scheduler `poll_loop`, and the price-fetch helper
`get_latest_price_sync`.

Modelling conventions:
* A Python dict is an association list with unique keys in insertion
  order; assigning to a fresh key appends it at the end, assigning to
  an existing key updates the stored value in place.
* A Python set is a `Finset`.
* WebSocket handles are opaque and compared by identity; they are
  modelled as natural numbers.  Symbols are strings.
* Python truthiness of the optional strings involved (`if prev:`,
  `if not symbol:`, `if symbol:`): `None` and `""` are falsy, every
  other string is truthy.
* Floats carried by price updates are never computed with; they are
  modelled as rationals.
-/

namespace StockVibe

/-- A websocket connection handle (opaque, identity comparison). -/
abbrev Conn := Nat

/-- A stock symbol. -/
abbrev Sym := String

variable {α β : Type} [DecidableEq α]

/-- Dict lookup, `d.get(k)` returning `none` for a missing key. -/
def alook : List (α × β) → α → Option β
  | [], _ => none
  | e :: es, k => if e.1 = k then some e.2 else alook es k

/-- Dict assignment `d[k] = v`: update the value in place when the key
exists, otherwise append the new key at the end (Python dicts preserve
insertion order). -/
def dset : List (α × β) → α → β → List (α × β)
  | [], k, v => [(k, v)]
  | e :: es, k, v => if e.1 = k then (k, v) :: es else e :: dset es k v

/-- Python `defaultdict` access combined with an in-place mutation of the
stored value: `d[k]` yields the stored value, inserting `dflt` for a
missing key, and the mutation `f` is applied to that value in place
(this models `subscriptions[k].add(c)` and `subscriptions[k].discard(c)`
on `defaultdict(set)`). -/
def dupdate (dflt : β) : List (α × β) → α → (β → β) → List (α × β)
  | [], k, f => [(k, f dflt)]
  | e :: es, k, f => if e.1 = k then (k, f e.2) :: es else e :: dupdate dflt es k f

/-- Dict key removal `d.pop(k, None)` (keys are unique, so removing the
key is a filter). -/
def dremove (l : List (α × β)) (k : α) : List (α × β) :=
  l.filter (fun e => decide ¬(e.1 = k))

/-- The registry state: module-level `subscriptions : Dict[str, set]`
(a `defaultdict(set)` from symbol to the set of subscribed connections)
and `ws_to_symbol : Dict[WebSocket, str]` (connection to its current
symbol, where the stored value may itself be Python `None`). -/
structure Registry where
  subscriptions : List (Sym × Finset Conn)
  ws_to_symbol : List (Conn × Option Sym)
deriving DecidableEq

/-- The initial registry: both dicts empty. -/
def emptyRegistry : Registry := ⟨[], []⟩

/-- Dict read `ws_to_symbol.get(ws)`: Python returns `None` both for an absent key
and for a key stored with value `None`; the two collapse under `.get`. -/
def pyGet (l : List (Conn × Option Sym)) (c : Conn) : Option Sym :=
  (alook l c).join

/-- The set of connections currently subscribed to `s`
(`subscriptions[s]` read-only; empty for an absent key). -/
def subsOf (R : Registry) (s : Sym) : Finset Conn :=
  (alook R.subscriptions s).getD ∅

/-- The key list of `subscriptions`, i.e. `list(subscriptions.keys())`
as snapshotted by the poll loop. -/
def symsList (R : Registry) : List Sym :=
  R.subscriptions.map Prod.fst

/-- Handler `websocket_endpoint` on accept (line 246): `ws_to_symbol[ws] = None`.
The subscriptions dict is untouched. -/
def acceptConn (R : Registry) (c : Conn) : Registry :=
  { R with ws_to_symbol := dset R.ws_to_symbol c none }

/-- Step `if prev: subscriptions[prev].discard(ws)` — discard connection `c`
from the set of the (truthy) symbol `prev`; no-op when `prev` is falsy
(`None` or `""`).  Shared by the subscribe path (line 262-264, with
`prev = ws_to_symbol.get(ws)`) and the disconnect path (line 274-276,
with `symbol = ws_to_symbol.pop(ws, None)`). -/
def discardPrev (d : List (Sym × Finset Conn)) (c : Conn) :
    Option Sym → List (Sym × Finset Conn)
  | some p => if p = "" then d else dupdate ∅ d p (fun t => t.erase c)
  | none => d

/-- The registry mutation of a valid subscribe command
(`websocket_endpoint` lines 261-267):
`prev = ws_to_symbol.get(ws)`; `if prev: subscriptions[prev].discard(ws)`;
`subscriptions[symbol].add(ws)`; `ws_to_symbol[ws] = symbol`.
Called by the session only with a truthy (non-empty) symbol. -/
def subscribeReg (R : Registry) (c : Conn) (s : Sym) : Registry :=
  { subscriptions :=
      dupdate ∅ (discardPrev R.subscriptions c (pyGet R.ws_to_symbol c)) s
        (fun t => insert c t),
    ws_to_symbol := dset R.ws_to_symbol c (some s) }

/-- Disconnect cleanup (`websocket_endpoint` lines 272-276):
`symbol = ws_to_symbol.pop(ws, None)`; `if symbol: subscriptions[symbol].discard(ws)`. -/
def disconnectCleanup (R : Registry) (c : Conn) : Registry :=
  { subscriptions := discardPrev R.subscriptions c (pyGet R.ws_to_symbol c),
    ws_to_symbol := dremove R.ws_to_symbol c }

/-- Delivery-failure cleanup (`poll_loop` lines 229-232): on a send
error, `subscriptions[sym].discard(ws)`; `ws_to_symbol.pop(ws, None)`,
where `sym` is the symbol currently being broadcast. -/
def failCleanup (R : Registry) (c : Conn) (s : Sym) : Registry :=
  { subscriptions := dupdate ∅ R.subscriptions s (fun t => t.erase c),
    ws_to_symbol := dremove R.ws_to_symbol c }

/-- One atomic registry operation, as performed by the code:
* `accept`: a freshly accepted websocket is a new handle, hence not yet
  a key of `ws_to_symbol`;
* `subscribe`: the session reaches the registry mutation only for a
  truthy symbol (`if not symbol: ... continue`), hence `s ≠ ""`;
* `disconnect`: disconnect cleanup for any connection;
* `fail`: delivery-failure cleanup, performed for a connection drawn
  from `subscriptions[s]` while broadcasting symbol `s`. -/
inductive Step : Registry → Registry → Prop
  | accept (R : Registry) (c : Conn) (h : alook R.ws_to_symbol c = none) :
      Step R (acceptConn R c)
  | subscribe (R : Registry) (c : Conn) (s : Sym) (h : s ≠ "") :
      Step R (subscribeReg R c s)
  | disconnect (R : Registry) (c : Conn) :
      Step R (disconnectCleanup R c)
  | fail (R : Registry) (c : Conn) (s : Sym) (h : c ∈ subsOf R s) :
      Step R (failCleanup R c s)

/-- Registry states reachable from the empty registry by the
operations of `Step`. -/
inductive Reachable : Registry → Prop
  | init : Reachable emptyRegistry
  | step {R R' : Registry} : Reachable R → Step R R' → Reachable R'

/-- The bidirectional-consistency invariant of the registry: a
connection mapped to symbol `s` (with `s` not `None`) lies in `s`'s
subscriber set and in no other symbol's set; a connection mapped to
nothing (absent key or stored `None`) lies in no symbol's set.  All
stored symbols are non-empty. -/
def Inv (R : Registry) : Prop :=
  ∀ c : Conn,
    (∀ s : Sym, pyGet R.ws_to_symbol c = some s →
      s ≠ "" ∧ c ∈ subsOf R s ∧ ∀ t : Sym, t ≠ s → c ∉ subsOf R t) ∧
    (pyGet R.ws_to_symbol c = none → ∀ s : Sym, c ∉ subsOf R s)

/-- The price-update payload built once per symbol per tick
(`poll_loop` line 224): a dict with fields `type = "price"` (constant),
`symbol`, `price` (a float, or `None` on a failed fetch) and `ts`.
The `type` field is constant and omitted. -/
structure Payload where
  symbol : Sym
  price : Option ℚ
  ts : Int
deriving DecidableEq

/-- A successfully delivered message: which connection received which
payload. -/
structure Sent where
  conn : Conn
  payload : Payload
deriving DecidableEq

/-- The observable outcome of one tick of `poll_loop`: the registry
after the tick, the successfully delivered messages in order, and the
Quote Provider calls made (one entry per `get_latest_price` call,
in order). -/
structure TickResult where
  reg : Registry
  sent : List Sent
  calls : List Sym
deriving DecidableEq

/-- Delivery of one payload to one connection (`poll_loop` lines
226-232): a failing send (`dead c`) triggers delivery-failure cleanup,
a successful send is recorded. -/
def deliverTo (dead : Conn → Bool) (sym : Sym) (pl : Payload)
    (st : Registry × List Sent) (c : Conn) : Registry × List Sent :=
  if dead c then (failCleanup st.1 c sym, st.2)
  else (st.1, st.2 ++ [⟨c, pl⟩])

/-- Processing of one symbol within a tick (`poll_loop` lines 222-232):
call the provider (`fetch sym`), build the payload, snapshot
`conns = list(subscriptions[sym])` (a Python set iterated in some
order; modelled as the sorted list of the `Finset`), and attempt
delivery to each connection of the snapshot.  `ts` is the scheduler's
clock reading during this tick. -/
def tickSym (fetch : Sym → Option ℚ) (dead : Conn → Bool) (ts : Int)
    (st : TickResult) (sym : Sym) : TickResult :=
  let pl : Payload := ⟨sym, fetch sym, ts⟩
  let conns := (subsOf st.reg sym).sort (· ≤ ·)
  let rs := conns.foldl (deliverTo dead sym pl) (st.reg, st.sent)
  ⟨rs.1, rs.2, st.calls ++ [sym]⟩

/-- One tick of `poll_loop` (lines 217-232): snapshot
`symbols = list(subscriptions.keys())`; if the snapshot is empty do
nothing, otherwise process each snapshotted symbol in order.
`fetch` is the Quote Provider (`get_latest_price`, returning a float
or `None`), `dead` tells which connections fail on send. -/
def tick (fetch : Sym → Option ℚ) (dead : Conn → Bool) (ts : Int)
    (R : Registry) : TickResult :=
  if (symsList R).isEmpty then ⟨R, [], []⟩
  else (symsList R).foldl (tickSym fetch dead ts) ⟨R, [], []⟩

/-- A JSON value, as produced by `json.loads` on a successful parse.
Objects are dicts with unique keys (duplicate keys are already
collapsed by the parser). -/
inductive JVal where
  | jnull
  | jbool (b : Bool)
  | jnum (q : ℚ)
  | jstr (s : String)
  | jarr (xs : List JVal)
  | jobj (fields : List (String × JVal))

/-- Python truthiness of a JSON value (`if not symbol:`). -/
def jtruthy : JVal → Bool
  | .jnull => false
  | .jbool b => b
  | .jnum q => decide ¬(q = 0)
  | .jstr s => decide ¬(s = "")
  | .jarr xs => !xs.isEmpty
  | .jobj fs => !fs.isEmpty

/-- The observable outcome of handling one inbound frame in the
session's receive loop (`websocket_endpoint` lines 248-270). The
first two outcomes return to the top of the `while True` loop, so the
connection remains open. -/
inductive SessionOut where
  | sentError (msg : String)
  | subscribedAck (s : Sym)
  | nonStringSubscribe (v : JVal)
  | raisedException

/-- Whether a session outcome is an `{"error": ...}` reply (after which
the receive loop continues and the connection stays open). -/
def SessionOut.isErr : SessionOut → Bool
  | .sentError _ => true
  | _ => false

/-- Handling of one inbound frame by `websocket_endpoint`
(lines 248-270).  The input is the result of `json.loads(data)`:
`none` when parsing raised (only `json.loads` sits inside the inner
`try`), `some v` for a parsed JSON value.

* parse failure: reply `{"error": "invalid json"}` and continue;
* a parsed object: dispatch on `obj.get("action")`.  Only the exact
  string `"subscribe"` matches; a falsy `obj.get("symbol")` (missing,
  `None`, `""`, `0`, `false`, `[]`, or an empty object) yields the
  `"no symbol provided"` error; a truthy string symbol mutates the
  registry via `subscribeReg` and is acknowledged; any other action
  yields the `"unknown action"` error;
* a truthy non-string symbol is outside the string-keyed registry
  model: the code would subscribe under a number/boolean key, or raise
  `TypeError` for an unhashable list/object key; this path is recorded
  as the opaque outcome `nonStringSubscribe` (no claim quantifies over
  it);
* a parsed non-object value (`null`, a number, a string, an array) has
  no `.get` attribute, so line 255 raises `AttributeError`, which is
  caught neither by the inner `try` (it only wraps `json.loads`) nor by
  the outer `try` (it only catches `WebSocketDisconnect`): the
  registry is untouched and the exception escapes the handler. -/
def sessionStep (R : Registry) (c : Conn) (m : Option JVal) :
    Registry × SessionOut :=
  match m with
  | none => (R, .sentError "invalid json")
  | some (.jobj fields) =>
    match alook fields "action" with
    | some (.jstr a) =>
      if a = "subscribe" then
        match alook fields "symbol" with
        | some v =>
          if jtruthy v then
            match v with
            | .jstr s => (subscribeReg R c s, .subscribedAck s)
            | _ => (R, .nonStringSubscribe v)
          else (R, .sentError "no symbol provided")
        | none => (R, .sentError "no symbol provided")
      else (R, .sentError "unknown action")
    | _ => (R, .sentError "unknown action")
  | some _ => (R, .raisedException)

/-- The message space quantified over by the error-handling claim:
malformed JSON, a subscribe command with a missing or empty symbol,
or an unknown action. -/
def MalformedOrBadCmd (m : Option JVal) : Prop :=
  m = none
  ∨ (∃ fields, m = some (.jobj fields) ∧
      alook fields "action" = some (.jstr "subscribe") ∧
      (alook fields "symbol" = none ∨ alook fields "symbol" = some (.jstr "")))
  ∨ (∃ fields, m = some (.jobj fields) ∧
      alook fields "action" ≠ some (.jstr "subscribe"))

/-- Python `a or b` on the two optional floats read from `ticker.info`
(`info.get("currentPrice") or info.get("regularMarketPrice")`):
yields `a` when `a` is truthy (present and nonzero), else `b`. -/
def pyOr (a b : Option ℚ) : Option ℚ :=
  match a with
  | some q => if q = 0 then b else some q
  | none => b

/-- The intraday branch of `get_latest_price_sync` (lines 198-203,
body of the first `try`): `ticker.history(period="1d", interval="1m")`
either raises (`.error`) or yields the list of 1-minute closes; a
non-empty history returns its last close (`.ok (some p)`), an empty
one falls through (`.ok none`). -/
def intradayBranch (fetch : Except Unit (List ℚ)) : Except Unit (Option ℚ) :=
  match fetch with
  | .error e => .error e
  | .ok closes =>
    match closes.getLast? with
    | some p => .ok (some p)
    | none => .ok none

/-- The info-fallback branch of `get_latest_price_sync` (lines 205-207,
body of the second `try`): `ticker.info` either raises or yields the
two optional fields `currentPrice` and `regularMarketPrice`;
`float(cp or rmp)` raises `TypeError` when both are falsy
(`float(None)`), otherwise returns the chosen number. -/
def infoBranch (info : Except Unit (Option ℚ × Option ℚ)) :
    Except Unit (Option ℚ) :=
  match info with
  | .error e => .error e
  | .ok cr =>
    match pyOr cr.1 cr.2 with
    | some q => .ok (some q)
    | none => .error ()

/-- Helper `get_latest_price_sync` (lines 195-209), with each `try/except`
explicit.  The two external effects are its parameters: the intraday
history fetch and the `ticker.info` read (`yf.Ticker(symbol)` itself
only stores the symbol and does not fail for a string argument).
The result is `.error` exactly when an exception would propagate out
of the function:
* first `try`: a raise anywhere in the intraday branch is swallowed by
  `except Exception: pass` and control falls to the fallback, as does
  an empty intraday history;
* second `try`: a raise in the info branch is turned into `return None`
  by `except Exception: return None`. -/
def get_latest_price_sync (fetch : Except Unit (List ℚ))
    (info : Except Unit (Option ℚ × Option ℚ)) : Except Unit (Option ℚ) :=
  match intradayBranch fetch with
  | .ok (some p) => .ok (some p)
  | .ok none =>
    match infoBranch info with
    | .ok v => .ok v
    | .error _ => .ok none
  | .error _ =>
    match infoBranch info with
    | .ok v => .ok v
    | .error _ => .ok none

theorem alook_dset_self (l : List (α × β)) (k : α) (v : β) :
    alook (dset l k v) k = some v := by
  induction l with
  | nil => simp [dset, alook]
  | cons e es ih =>
    by_cases h : e.1 = k
    · simp [dset, alook, h]
    · simp [dset, alook, h, ih]

theorem alook_dset_ne (l : List (α × β)) (k k' : α) (v : β) (h : k' ≠ k) :
    alook (dset l k v) k' = alook l k' := by
  induction l with
  | nil => simp [dset, alook, Ne.symm h]
  | cons e es ih =>
    by_cases he : e.1 = k
    · simp [dset, alook, he, Ne.symm h]
    · simp [dset, alook, he, ih]

theorem alook_dupdate_self (dflt : β) (l : List (α × β)) (k : α) (f : β → β) :
    alook (dupdate dflt l k f) k = some (f ((alook l k).getD dflt)) := by
  induction l with
  | nil => simp [dupdate, alook]
  | cons e es ih =>
    by_cases h : e.1 = k
    · simp [dupdate, alook, h]
    · simp [dupdate, alook, h, ih]

theorem alook_dupdate_ne (dflt : β) (l : List (α × β)) (k k' : α) (f : β → β)
    (h : k' ≠ k) : alook (dupdate dflt l k f) k' = alook l k' := by
  induction l with
  | nil => simp [dupdate, alook, Ne.symm h]
  | cons e es ih =>
    by_cases he : e.1 = k
    · simp [dupdate, alook, he, Ne.symm h]
    · simp [dupdate, alook, he, ih]

theorem alook_dremove_self (l : List (α × β)) (k : α) :
    alook (dremove l k) k = none := by
  induction l with
  | nil => rfl
  | cons e es ih =>
    by_cases h : e.1 = k
    · simpa [dremove, List.filter_cons, h] using ih
    · simpa [dremove, alook, List.filter_cons, h] using ih

theorem alook_dremove_ne (l : List (α × β)) (k k' : α) (h : k' ≠ k) :
    alook (dremove l k) k' = alook l k' := by
  induction l with
  | nil => rfl
  | cons e es ih =>
    have ih' := ih
    simp only [dremove, decide_not] at ih'
    by_cases he : e.1 = k
    · have h2 : e.1 ≠ k' := fun hk => h (hk ▸ he)
      simp [dremove, alook, List.filter_cons, he, h2, Ne.symm h, ih']
    · simp [dremove, alook, List.filter_cons, he, ih']

theorem alook_isSome_mem_keys {l : List (α × β)} {k : α} {v : β}
    (h : alook l k = some v) : k ∈ l.map Prod.fst := by
  induction l with
  | nil => simp [alook] at h
  | cons e es ih =>
    by_cases he : e.1 = k
    · simp [he]
    · simp [alook, he] at h
      simp [ih h]

theorem alook_eq_none_of_not_mem {l : List (α × β)} {k : α}
    (h : k ∉ l.map Prod.fst) : alook l k = none := by
  induction l with
  | nil => rfl
  | cons e es ih =>
    have h1 : e.1 ≠ k := by
      intro hk; exact h (by simp [hk])
    have h2 : k ∉ es.map Prod.fst := by
      intro hk; exact h (by simp [hk])
    simp [alook, h1, ih h2]

theorem pyGet_dset_self (l : List (Conn × Option Sym)) (c : Conn) (v : Option Sym) :
    pyGet (dset l c v) c = v := by
  simp [pyGet, alook_dset_self]

theorem pyGet_dset_ne (l : List (Conn × Option Sym)) (c c' : Conn) (v : Option Sym)
    (h : c' ≠ c) : pyGet (dset l c v) c' = pyGet l c' := by
  simp [pyGet, alook_dset_ne _ _ _ _ h]

theorem pyGet_dremove_self (l : List (Conn × Option Sym)) (c : Conn) :
    pyGet (dremove l c) c = none := by
  simp [pyGet, alook_dremove_self]

theorem pyGet_dremove_ne (l : List (Conn × Option Sym)) (c c' : Conn) (h : c' ≠ c) :
    pyGet (dremove l c) c' = pyGet l c' := by
  simp [pyGet, alook_dremove_ne _ _ _ h]

/-- Read `subscriptions[t]` as a pure read on a raw dict: the stored set, or
`∅` for a missing key. -/
def fget (d : List (Sym × Finset Conn)) (t : Sym) : Finset Conn :=
  (alook d t).getD ∅

theorem subsOf_eq_fget (R : Registry) (s : Sym) :
    subsOf R s = fget R.subscriptions s := rfl

theorem fget_dupdate_self (d : List (Sym × Finset Conn)) (k : Sym)
    (f : Finset Conn → Finset Conn) : fget (dupdate ∅ d k f) k = f (fget d k) := by
  simp [fget, alook_dupdate_self]

theorem fget_dupdate_ne (d : List (Sym × Finset Conn)) (k t : Sym)
    (f : Finset Conn → Finset Conn) (h : t ≠ k) :
    fget (dupdate ∅ d k f) t = fget d t := by
  simp [fget, alook_dupdate_ne _ _ _ _ _ h]

/-- Discarding is invisible to other connections. -/
theorem mem_fget_discardPrev {x c : Conn} (hne : x ≠ c)
    (d : List (Sym × Finset Conn)) (prev : Option Sym) (t : Sym) :
    x ∈ fget (discardPrev d c prev) t ↔ x ∈ fget d t := by
  cases prev with
  | none => exact Iff.rfl
  | some p =>
    by_cases hp : p = ""
    · simp [discardPrev, hp]
    · by_cases ht : t = p
      · subst ht
        simp [discardPrev, hp, fget_dupdate_self, Finset.mem_erase, hne]
      · simp [discardPrev, hp, fget_dupdate_ne _ _ _ _ ht]

/-- Under the invariant, the subscribe/disconnect discard step removes
the connection from every symbol's set. -/
theorem discardPrev_clears (R : Registry) (c : Conn) (hI : Inv R) (t : Sym) :
    c ∉ fget (discardPrev R.subscriptions c (pyGet R.ws_to_symbol c)) t := by
  rcases hpg : pyGet R.ws_to_symbol c with _ | p
  · exact (hI c).2 hpg t
  · obtain ⟨hpne, _, hothers⟩ := (hI c).1 p hpg
    by_cases ht : t = p
    · subst ht
      simp [discardPrev, hpne, fget_dupdate_self]
    · have := hothers t ht
      simpa [discardPrev, hpne, fget_dupdate_ne _ _ _ _ ht] using this

/-- Under the invariant, a connection found in a symbol's subscriber
set is mapped to that symbol by `ws_to_symbol`. -/
theorem inv_pyGet_of_mem {R : Registry} {c : Conn} {s : Sym} (hI : Inv R)
    (h : c ∈ subsOf R s) : pyGet R.ws_to_symbol c = some s := by
  rcases hpg : pyGet R.ws_to_symbol c with _ | t
  · exact absurd h ((hI c).2 hpg s)
  · by_cases hts : t = s
    · exact congrArg some hts
    · exact absurd h (((hI c).1 t hpg).2.2 s (fun he => hts he.symm))

theorem inv_accept (R : Registry) (c : Conn)
    (hfresh : alook R.ws_to_symbol c = none) (hI : Inv R) :
    Inv (acceptConn R c) := by
  have hpg : pyGet R.ws_to_symbol c = none := by simp [pyGet, hfresh]
  have hsubs : ∀ s, subsOf (acceptConn R c) s = subsOf R s := fun _ => rfl
  intro c'
  by_cases hc : c' = c
  · subst hc
    constructor
    · intro s hsg
      rw [show (acceptConn R c').ws_to_symbol = dset R.ws_to_symbol c' none from rfl,
        pyGet_dset_self] at hsg
      exact absurd hsg (by simp)
    · intro _ s
      rw [hsubs]
      exact (hI c').2 hpg s
  · have hws : pyGet (acceptConn R c).ws_to_symbol c' = pyGet R.ws_to_symbol c' :=
      pyGet_dset_ne _ _ _ _ hc
    constructor
    · intro s hsg
      rw [hws] at hsg
      simpa [hsubs] using (hI c').1 s hsg
    · intro hn s
      rw [hws] at hn
      rw [hsubs]
      exact (hI c').2 hn s

theorem inv_subscribe (R : Registry) (c : Conn) (s : Sym) (hs : s ≠ "")
    (hI : Inv R) : Inv (subscribeReg R c s) := by
  have hsubs : (subscribeReg R c s).subscriptions =
      dupdate ∅ (discardPrev R.subscriptions c (pyGet R.ws_to_symbol c)) s
        (fun t => insert c t) := rfl
  have hws : (subscribeReg R c s).ws_to_symbol = dset R.ws_to_symbol c (some s) := rfl
  intro c'
  by_cases hc : c' = c
  · subst hc
    constructor
    · intro t htg
      rw [hws, pyGet_dset_self] at htg
      obtain rfl : s = t := by injection htg
      refine ⟨hs, ?_, ?_⟩
      · rw [subsOf_eq_fget, hsubs, fget_dupdate_self]
        exact Finset.mem_insert_self c' _
      · intro u hu
        rw [subsOf_eq_fget, hsubs, fget_dupdate_ne _ _ _ _ hu]
        exact discardPrev_clears R c' hI u
    · intro hn
      rw [hws, pyGet_dset_self] at hn
      exact absurd hn (by simp)
  · have hwsc : pyGet (subscribeReg R c s).ws_to_symbol c' = pyGet R.ws_to_symbol c' := by
      rw [hws]; exact pyGet_dset_ne _ _ _ _ hc
    have hmm : ∀ t, c' ∈ subsOf (subscribeReg R c s) t ↔ c' ∈ subsOf R t := by
      intro t
      rw [subsOf_eq_fget, subsOf_eq_fget, hsubs]
      have h1 : c' ∈ fget (dupdate ∅
            (discardPrev R.subscriptions c (pyGet R.ws_to_symbol c)) s
            (fun u => insert c u)) t ↔
          c' ∈ fget (discardPrev R.subscriptions c (pyGet R.ws_to_symbol c)) t := by
        by_cases ht : t = s
        · subst ht
          rw [fget_dupdate_self]
          simp [Finset.mem_insert, hc]
        · rw [fget_dupdate_ne _ _ _ _ ht]
      exact h1.trans (mem_fget_discardPrev hc _ _ _)
    constructor
    · intro t htg
      rw [hwsc] at htg
      obtain ⟨h1, h2, h3⟩ := (hI c').1 t htg
      exact ⟨h1, (hmm t).2 h2, fun u hu => fun hmem => h3 u hu ((hmm u).1 hmem)⟩
    · intro hn t
      rw [hwsc] at hn
      exact fun hmem => (hI c').2 hn t ((hmm t).1 hmem)

theorem inv_disconnect (R : Registry) (c : Conn) (hI : Inv R) :
    Inv (disconnectCleanup R c) := by
  have hsubs : (disconnectCleanup R c).subscriptions =
      discardPrev R.subscriptions c (pyGet R.ws_to_symbol c) := rfl
  have hws : (disconnectCleanup R c).ws_to_symbol = dremove R.ws_to_symbol c := rfl
  intro c'
  by_cases hc : c' = c
  · subst hc
    constructor
    · intro t htg
      rw [hws, pyGet_dremove_self] at htg
      exact absurd htg (by simp)
    · intro _ t
      rw [subsOf_eq_fget, hsubs]
      exact discardPrev_clears R c' hI t
  · have hwsc : pyGet (disconnectCleanup R c).ws_to_symbol c' = pyGet R.ws_to_symbol c' := by
      rw [hws]; exact pyGet_dremove_ne _ _ _ hc
    have hmm : ∀ t, c' ∈ subsOf (disconnectCleanup R c) t ↔ c' ∈ subsOf R t := by
      intro t
      rw [subsOf_eq_fget, subsOf_eq_fget, hsubs]
      exact mem_fget_discardPrev hc _ _ _
    constructor
    · intro t htg
      rw [hwsc] at htg
      obtain ⟨h1, h2, h3⟩ := (hI c').1 t htg
      exact ⟨h1, (hmm t).2 h2, fun u hu => fun hmem => h3 u hu ((hmm u).1 hmem)⟩
    · intro hn t
      rw [hwsc] at hn
      exact fun hmem => (hI c').2 hn t ((hmm t).1 hmem)

theorem inv_fail (R : Registry) (c : Conn) (s : Sym) (h : c ∈ subsOf R s)
    (hI : Inv R) : Inv (failCleanup R c s) := by
  have hpg : pyGet R.ws_to_symbol c = some s := inv_pyGet_of_mem hI h
  obtain ⟨hsne, _, hothers⟩ := (hI c).1 s hpg
  have hsubs : (failCleanup R c s).subscriptions =
      dupdate ∅ R.subscriptions s (fun t => t.erase c) := rfl
  have hws : (failCleanup R c s).ws_to_symbol = dremove R.ws_to_symbol c := rfl
  intro c'
  by_cases hc : c' = c
  · subst hc
    constructor
    · intro t htg
      rw [hws, pyGet_dremove_self] at htg
      exact absurd htg (by simp)
    · intro _ t
      rw [subsOf_eq_fget, hsubs]
      by_cases ht : t = s
      · subst ht
        rw [fget_dupdate_self]
        simp
      · rw [fget_dupdate_ne _ _ _ _ ht]
        exact hothers t ht
  · have hwsc : pyGet (failCleanup R c s).ws_to_symbol c' = pyGet R.ws_to_symbol c' := by
      rw [hws]; exact pyGet_dremove_ne _ _ _ hc
    have hmm : ∀ t, c' ∈ subsOf (failCleanup R c s) t ↔ c' ∈ subsOf R t := by
      intro t
      rw [subsOf_eq_fget, subsOf_eq_fget, hsubs]
      by_cases ht : t = s
      · subst ht
        rw [fget_dupdate_self]
        simp [Finset.mem_erase, hc]
      · rw [fget_dupdate_ne _ _ _ _ ht]
    constructor
    · intro t htg
      rw [hwsc] at htg
      obtain ⟨h1, h2, h3⟩ := (hI c').1 t htg
      exact ⟨h1, (hmm t).2 h2, fun u hu => fun hmem => h3 u hu ((hmm u).1 hmem)⟩
    · intro hn t
      rw [hwsc] at hn
      exact fun hmem => (hI c').2 hn t ((hmm t).1 hmem)

theorem inv_step {R R' : Registry} (h : Step R R') (hI : Inv R) : Inv R' := by
  cases h with
  | accept c hf => exact inv_accept R c hf hI
  | subscribe c s hs => exact inv_subscribe R c s hs hI
  | disconnect c => exact inv_disconnect R c hI
  | fail c s hm => exact inv_fail R c s hm hI

theorem inv_empty : Inv emptyRegistry := by
  intro c
  constructor
  · intro s hsg
    exact absurd hsg (by simp [pyGet, alook, emptyRegistry])
  · intro _ s
    simp [subsOf, alook, emptyRegistry]

theorem reachable_inv {R : Registry} (h : Reachable R) : Inv R := by
  induction h with
  | init => exact inv_empty
  | step _ hs ih => exact inv_step hs ih

theorem dset_dset (l : List (α × β)) (k : α) (v w : β) :
    dset (dset l k v) k w = dset l k w := by
  induction l with
  | nil => simp [dset]
  | cons e es ih =>
    by_cases h : e.1 = k
    · simp [dset, h]
    · simp [dset, h, ih]

theorem dupdate_dupdate (dflt : β) (l : List (α × β)) (k : α) (f g : β → β) :
    dupdate dflt (dupdate dflt l k f) k g = dupdate dflt l k (fun v => g (f v)) := by
  induction l with
  | nil => simp [dupdate]
  | cons e es ih =>
    by_cases h : e.1 = k
    · simp [dupdate, h]
    · simp [dupdate, h, ih]

theorem mem_map_fst_dupdate (dflt : β) (l : List (α × β)) (k t : α) (f : β → β) :
    t ∈ (dupdate dflt l k f).map Prod.fst ↔ t ∈ l.map Prod.fst ∨ t = k := by
  induction l with
  | nil => simp [dupdate]
  | cons e es ih =>
    by_cases h : e.1 = k
    · subst h
      simp [dupdate]
      tauto
    · simp [dupdate, h, ih]
      tauto

theorem nodup_map_fst_dupdate (dflt : β) (l : List (α × β)) (k : α) (f : β → β)
    (h : (l.map Prod.fst).Nodup) : ((dupdate dflt l k f).map Prod.fst).Nodup := by
  induction l with
  | nil => simp [dupdate]
  | cons e es ih =>
    rw [List.map_cons, List.nodup_cons] at h
    by_cases he : e.1 = k
    · simp only [dupdate, he, if_pos rfl]
      rw [← he]
      exact List.nodup_cons.mpr h
    · rw [show dupdate dflt (e :: es) k f = e :: dupdate dflt es k f from by
        simp [dupdate, he]]
      rw [List.map_cons, List.nodup_cons]
      refine ⟨?_, ih h.2⟩
      rw [mem_map_fst_dupdate]
      rintro (hmem | rfl)
      · exact h.1 hmem
      · exact he rfl

theorem map_fst_dset_subset (l : List (α × β)) (k t : α) (v : β)
    (h : t ∈ l.map Prod.fst) : t ∈ (dset l k v).map Prod.fst := by
  induction l with
  | nil => simp at h
  | cons e es ih =>
    by_cases he : e.1 = k
    · subst he
      simpa [dset] using h
    · rcases (by simpa using h : t = e.1 ∨ t ∈ es.map Prod.fst) with rfl | hmem
      · simp [dset, he]
      · simp [dset, he, ih hmem]

theorem mem_map_fst_discardPrev (d : List (Sym × Finset Conn)) (c : Conn)
    (prev : Option Sym) (t : Sym) (h : t ∈ d.map Prod.fst) :
    t ∈ (discardPrev d c prev).map Prod.fst := by
  cases prev with
  | none => exact h
  | some p =>
    by_cases hp : p = ""
    · simpa [discardPrev, hp] using h
    · simp only [discardPrev, hp, if_neg hp]
      exact (mem_map_fst_dupdate _ _ _ _ _).mpr (Or.inl h)

theorem nodup_map_fst_discardPrev (d : List (Sym × Finset Conn)) (c : Conn)
    (prev : Option Sym) (h : (d.map Prod.fst).Nodup) :
    ((discardPrev d c prev).map Prod.fst).Nodup := by
  cases prev with
  | none => exact h
  | some p =>
    by_cases hp : p = ""
    · simpa [discardPrev, hp] using h
    · simp only [discardPrev, hp, if_neg hp]
      exact nodup_map_fst_dupdate _ _ _ _ h

/-- No registry operation ever removes a key from `subscriptions`. -/
theorem symsList_step_mono {R R' : Registry} (h : Step R R') {s : Sym}
    (hs : s ∈ symsList R) : s ∈ symsList R' := by
  cases h with
  | accept c hf => exact hs
  | subscribe c t ht =>
    show s ∈ (dupdate ∅ (discardPrev R.subscriptions c (pyGet R.ws_to_symbol c)) t
      (fun u => insert c u)).map Prod.fst
    exact (mem_map_fst_dupdate _ _ _ _ _).mpr
      (Or.inl (mem_map_fst_discardPrev _ _ _ _ hs))
  | disconnect c =>
    exact mem_map_fst_discardPrev _ _ _ _ hs
  | fail c t hm =>
    show s ∈ (dupdate ∅ R.subscriptions t (fun u => u.erase c)).map Prod.fst
    exact (mem_map_fst_dupdate _ _ _ _ _).mpr (Or.inl hs)

theorem symsList_step_nodup {R R' : Registry} (h : Step R R')
    (hn : (symsList R).Nodup) : (symsList R').Nodup := by
  cases h with
  | accept c hf => exact hn
  | subscribe c t ht =>
    exact nodup_map_fst_dupdate _ _ _ _ (nodup_map_fst_discardPrev _ _ _ hn)
  | disconnect c => exact nodup_map_fst_discardPrev _ _ _ hn
  | fail c t hm => exact nodup_map_fst_dupdate _ _ _ _ hn

theorem reachable_symsList_nodup {R : Registry} (h : Reachable R) :
    (symsList R).Nodup := by
  induction h with
  | init => exact List.nodup_nil
  | step _ hs ih => exact symsList_step_nodup hs ih

theorem mem_symsList_of_subsOf_nonempty {R : Registry} {s : Sym}
    (h : subsOf R s ≠ ∅) : s ∈ symsList R := by
  rcases ha : alook R.subscriptions s with _ | v
  · exact absurd (by simp [subsOf, ha]) h
  · exact alook_isSome_mem_keys ha

theorem foldl_deliverTo_nodead (sym : Sym) (pl : Payload) (conns : List Conn)
    (st : Registry × List Sent) :
    conns.foldl (deliverTo (fun _ => false) sym pl) st =
      (st.1, st.2 ++ conns.map (fun c => ⟨c, pl⟩)) := by
  induction conns generalizing st with
  | nil => simp
  | cons c cs ih =>
    rw [List.foldl_cons, ih]
    simp [deliverTo]

theorem tickSym_nodead (fetch : Sym → Option ℚ) (ts : Int) (st : TickResult)
    (sym : Sym) :
    tickSym fetch (fun _ => false) ts st sym =
      ⟨st.reg,
       st.sent ++ ((subsOf st.reg sym).sort (· ≤ ·)).map
         (fun c => ⟨c, ⟨sym, fetch sym, ts⟩⟩),
       st.calls ++ [sym]⟩ := by
  simp [tickSym, foldl_deliverTo_nodead]

theorem foldl_tickSym_nodead (fetch : Sym → Option ℚ) (ts : Int)
    (syms : List Sym) (st : TickResult) :
    syms.foldl (tickSym fetch (fun _ => false) ts) st =
      ⟨st.reg,
       st.sent ++ (syms.map (fun s => ((subsOf st.reg s).sort (· ≤ ·)).map
         (fun c => (⟨c, ⟨s, fetch s, ts⟩⟩ : Sent)))).flatten,
       st.calls ++ syms⟩ := by
  induction syms generalizing st with
  | nil => simp
  | cons s ss ih =>
    rw [List.foldl_cons, tickSym_nodead, ih]
    simp

theorem tick_nodead (fetch : Sym → Option ℚ) (ts : Int) (R : Registry) :
    tick fetch (fun _ => false) ts R =
      ⟨R, ((symsList R).map (fun s => ((subsOf R s).sort (· ≤ ·)).map
        (fun c => (⟨c, ⟨s, fetch s, ts⟩⟩ : Sent)))).flatten,
       symsList R⟩ := by
  rw [tick]
  by_cases h : (symsList R).isEmpty
  · rw [if_pos h]
    have he : symsList R = [] := by simpa using h
    simp [he]
  · rw [if_neg h, foldl_tickSym_nodead]
    simp

theorem foldl_tickSym_calls (fetch : Sym → Option ℚ) (dead : Conn → Bool)
    (ts : Int) (syms : List Sym) (st : TickResult) :
    (syms.foldl (tickSym fetch dead ts) st).calls = st.calls ++ syms := by
  induction syms generalizing st with
  | nil => simp
  | cons s ss ih =>
    rw [List.foldl_cons, ih]
    simp [tickSym]

theorem tick_calls (fetch : Sym → Option ℚ) (dead : Conn → Bool) (ts : Int)
    (R : Registry) : (tick fetch dead ts R).calls = symsList R := by
  rw [tick]
  by_cases h : (symsList R).isEmpty
  · rw [if_pos h]
    have he : symsList R = [] := by simpa using h
    simp [he]
  · rw [if_neg h, foldl_tickSym_calls]
    simp

theorem symsList_failCleanup_mono (R : Registry) (c : Conn) (t : Sym) {s : Sym}
    (h : s ∈ symsList R) : s ∈ symsList (failCleanup R c t) :=
  (mem_map_fst_dupdate _ _ _ _ _).mpr (Or.inl h)

theorem foldl_deliverTo_keys_mono (dead : Conn → Bool) (sym : Sym) (pl : Payload)
    (conns : List Conn) (st : Registry × List Sent) {s : Sym}
    (h : s ∈ symsList st.1) :
    s ∈ symsList (conns.foldl (deliverTo dead sym pl) st).1 := by
  induction conns generalizing st with
  | nil => exact h
  | cons c cs ih =>
    rw [List.foldl_cons]
    apply ih
    by_cases hd : dead c
    · simpa [deliverTo, hd] using symsList_failCleanup_mono st.1 c sym h
    · simpa [deliverTo, hd] using h

theorem foldl_tickSym_keys_mono (fetch : Sym → Option ℚ) (dead : Conn → Bool)
    (ts : Int) (syms : List Sym) (st : TickResult) {s : Sym}
    (h : s ∈ symsList st.reg) :
    s ∈ symsList (syms.foldl (tickSym fetch dead ts) st).reg := by
  induction syms generalizing st with
  | nil => exact h
  | cons t tts ih =>
    rw [List.foldl_cons]
    apply ih
    exact foldl_deliverTo_keys_mono _ _ _ _ _ h

theorem tick_keys_mono (fetch : Sym → Option ℚ) (dead : Conn → Bool) (ts : Int)
    (R : Registry) {s : Sym} (h : s ∈ symsList R) :
    s ∈ symsList (tick fetch dead ts R).reg := by
  rw [tick]
  by_cases he : (symsList R).isEmpty
  · rw [if_pos he]
    exact h
  · rw [if_neg he]
    exact foldl_tickSym_keys_mono _ _ _ _ _ h

theorem tick_nodead_mem_sent (fetch : Sym → Option ℚ) (ts : Int) (R : Registry)
    {c : Conn} {s : Sym} (h : c ∈ subsOf R s) :
    (⟨c, ⟨s, fetch s, ts⟩⟩ : Sent) ∈ (tick fetch (fun _ => false) ts R).sent := by
  have hsym : s ∈ symsList R :=
    mem_symsList_of_subsOf_nonempty (fun he => by simp [he] at h)
  rw [tick_nodead]
  refine List.mem_flatten.mpr ⟨((subsOf R s).sort (· ≤ ·)).map
    (fun c => (⟨c, ⟨s, fetch s, ts⟩⟩ : Sent)), ?_, ?_⟩
  · exact List.mem_map.mpr ⟨s, hsym, rfl⟩
  · exact List.mem_map.mpr ⟨c, (Finset.mem_sort _).mpr h, rfl⟩

theorem tick_nodead_sent_shape (fetch : Sym → Option ℚ) (ts : Int) (R : Registry)
    {m : Sent} (h : m ∈ (tick fetch (fun _ => false) ts R).sent) :
    m.payload = ⟨m.payload.symbol, fetch m.payload.symbol, ts⟩ := by
  rw [tick_nodead] at h
  obtain ⟨l, hl, hm⟩ := List.mem_flatten.mp h
  obtain ⟨s, _, rfl⟩ := List.mem_map.mp hl
  obtain ⟨c, _, rfl⟩ := List.mem_map.mp hm
  rfl

theorem discardPrev_some (d : List (Sym × Finset Conn)) (c : Conn) {p : Sym}
    (hp : p ≠ "") : discardPrev d c (some p) = dupdate ∅ d p (fun t => t.erase c) := by
  simp [discardPrev, hp]

/-- Sample reachable state: connection 0 accepted and subscribed to
"AAPL". -/
def regA : Registry := subscribeReg (acceptConn emptyRegistry 0) 0 "AAPL"

theorem regA_reachable : Reachable regA :=
  Reachable.step
    (Reachable.step Reachable.init (Step.accept emptyRegistry 0 rfl))
    (Step.subscribe (acceptConn emptyRegistry 0) 0 "AAPL" (by decide))

/-- Sample reachable state: connection 0 subscribed to "AAPL",
connection 1 subscribed to "MSFT". -/
def regAB : Registry :=
  subscribeReg (subscribeReg (acceptConn (acceptConn emptyRegistry 0) 1) 0 "AAPL")
    1 "MSFT"

theorem regAB_reachable : Reachable regAB :=
  Reachable.step
    (Reachable.step
      (Reachable.step
        (Reachable.step Reachable.init (Step.accept emptyRegistry 0 rfl))
        (Step.accept (acceptConn emptyRegistry 0) 1 (by decide)))
      (Step.subscribe (acceptConn (acceptConn emptyRegistry 0) 1) 0 "AAPL" (by decide)))
    (Step.subscribe
      (subscribeReg (acceptConn (acceptConn emptyRegistry 0) 1) 0 "AAPL")
      1 "MSFT" (by decide))

/-- Sample reachable state: connections 0 and 1 both subscribed to
"AAPL". -/
def regAA : Registry :=
  subscribeReg (subscribeReg (acceptConn (acceptConn emptyRegistry 0) 1) 0 "AAPL")
    1 "AAPL"

theorem regAA_reachable : Reachable regAA :=
  Reachable.step
    (Reachable.step
      (Reachable.step
        (Reachable.step Reachable.init (Step.accept emptyRegistry 0 rfl))
        (Step.accept (acceptConn emptyRegistry 0) 1 (by decide)))
      (Step.subscribe (acceptConn (acceptConn emptyRegistry 0) 1) 0 "AAPL" (by decide)))
    (Step.subscribe
      (subscribeReg (acceptConn (acceptConn emptyRegistry 0) 1) 0 "AAPL")
      1 "AAPL" (by decide))

/-- Sample reachable state: connection 0 subscribed to "AAPL" and then
disconnected — the "AAPL" key survives with an empty subscriber set. -/
def regEmptyAAPL : Registry := disconnectCleanup regA 0

theorem regEmptyAAPL_reachable : Reachable regEmptyAAPL :=
  Reachable.step regA_reachable (Step.disconnect regA 0)

/-- C1: For every reachable Registry state (reachable via any sequence
of the operations websocket accept, subscribe, disconnect cleanup and
delivery-failure cleanup, starting from the empty registry), every
connection appears in at most one symbol's subscriber set and the two
maps agree: if `ws_to_symbol` maps `c` to a symbol `s` (not `None`)
then `c ∈ subscriptions[s]` and `c` is in no other symbol's set, and
if `ws_to_symbol` maps `c` to nothing (absent key or stored `None`)
then `c` is in no symbol's set. -/
theorem registry_invariant_reachable (R : Registry) (h : Reachable R) : Inv R :=
  reachable_inv h

theorem registry_invariant_reachable_witness : Reachable regA ∧ Inv regA :=
  ⟨regA_reachable, registry_invariant_reachable regA regA_reachable⟩

/-- C2, counterexample: in the reachable state `regEmptyAAPL`
(connection 0 subscribed to "AAPL" and then disconnected) no
connection is subscribed to any symbol — `ws_to_symbol` is empty and
the only subscriber set is empty — yet the tick snapshot still
contains "AAPL" and the Quote Provider is called for it.  The snapshot
is therefore not "exactly the symbols with at least one subscribed
connection", and a tick with no subscribed connection still makes
provider calls. -/
theorem tick_polls_zero_subscriber_symbol :
    Reachable regEmptyAAPL ∧
    regEmptyAAPL.subscriptions = [("AAPL", (∅ : Finset Conn))] ∧
    regEmptyAAPL.ws_to_symbol = [] ∧
    subsOf regEmptyAAPL "AAPL" = ∅ ∧
    (tick (fun _ => some 1) (fun _ => false) 0 regEmptyAAPL).calls = ["AAPL"] :=
  ⟨regEmptyAAPL_reachable, by decide, by decide, by decide, by decide⟩

/-- C2, amended: on every scheduler tick the snapshot of current
symbols is exactly the key list of `subscriptions` — every symbol ever
subscribed, including symbols whose subscriber set has since become
empty.  The Quote Provider is called once per key of that snapshot
(the key list has no duplicates in reachable states), every symbol
with at least one subscriber is in the snapshot, and the tick makes no
provider calls exactly when the key list is empty (no symbol was ever
subscribed). -/
theorem tick_snapshot_is_key_list (fetch : Sym → Option ℚ) (dead : Conn → Bool)
    (ts : Int) (R : Registry) (h : Reachable R) :
    (tick fetch dead ts R).calls = symsList R ∧
    (symsList R).Nodup ∧
    (∀ s, subsOf R s ≠ ∅ → s ∈ (tick fetch dead ts R).calls) ∧
    (symsList R = [] → (tick fetch dead ts R).calls = []) := by
  refine ⟨tick_calls _ _ _ _, reachable_symsList_nodup h, ?_, ?_⟩
  · intro s hs
    rw [tick_calls]
    exact mem_symsList_of_subsOf_nonempty hs
  · intro he
    rw [tick_calls, he]

theorem tick_snapshot_is_key_list_witness :
    Reachable regA ∧
    ((tick (fun _ => some 1) (fun _ => false) 0 regA).calls = symsList regA ∧
      (symsList regA).Nodup ∧
      (∀ s, subsOf regA s ≠ ∅ →
        s ∈ (tick (fun _ => some 1) (fun _ => false) 0 regA).calls) ∧
      (symsList regA = [] →
        (tick (fun _ => some 1) (fun _ => false) 0 regA).calls = [])) :=
  ⟨regA_reachable,
    tick_snapshot_is_key_list (fun _ => some 1) (fun _ => false) 0 regA regA_reachable⟩

/-- C3: Cleanup of a connection `c` — whether by disconnect detection
or by a send failure during broadcast — removes `c` from every
symbol's subscriber set and removes `c`'s entry from `ws_to_symbol`,
so that afterwards `c` appears nowhere in the registry. -/
theorem cleanup_removes_connection_everywhere (R : Registry) (c : Conn)
    (h : Reachable R) :
    ((∀ s, c ∉ subsOf (disconnectCleanup R c) s) ∧
      alook (disconnectCleanup R c).ws_to_symbol c = none) ∧
    (∀ s, c ∈ subsOf R s →
      (∀ t, c ∉ subsOf (failCleanup R c s) t) ∧
      alook (failCleanup R c s).ws_to_symbol c = none) := by
  have hI := reachable_inv h
  refine ⟨⟨fun s => discardPrev_clears R c hI s, alook_dremove_self _ _⟩, ?_⟩
  intro s hmem
  have hpg := inv_pyGet_of_mem hI hmem
  obtain ⟨hsne, _, hothers⟩ := (hI c).1 s hpg
  refine ⟨?_, alook_dremove_self _ _⟩
  intro t
  rw [subsOf_eq_fget,
    show (failCleanup R c s).subscriptions =
      dupdate ∅ R.subscriptions s (fun u => u.erase c) from rfl]
  by_cases ht : t = s
  · subst ht
    rw [fget_dupdate_self]
    simp
  · rw [fget_dupdate_ne _ _ _ _ ht]
    exact hothers t ht

theorem cleanup_removes_connection_everywhere_witness :
    Reachable regA ∧
    (((∀ s, (0 : Conn) ∉ subsOf (disconnectCleanup regA 0) s) ∧
        alook (disconnectCleanup regA 0).ws_to_symbol 0 = none) ∧
      (∀ s, (0 : Conn) ∈ subsOf regA s →
        (∀ t, (0 : Conn) ∉ subsOf (failCleanup regA 0 s) t) ∧
        alook (failCleanup regA 0 s).ws_to_symbol 0 = none)) :=
  ⟨regA_reachable, cleanup_removes_connection_everywhere regA 0 regA_reachable⟩

/-- C4: Within a single tick with two subscribed symbols, if the Quote
Provider fails for one symbol (`fetch s2 = none`) and succeeds for the
other (`fetch s1 = some p`), a subscriber of the failing symbol is
sent a price update with a null price and a subscriber of the
succeeding symbol is sent a numeric-price update, both in the same
tick's delivery list: the fetch failure does not abort the tick. -/
theorem tick_isolates_fetch_failure (fetch : Sym → Option ℚ) (ts : Int)
    (R : Registry) (s1 s2 : Sym) (c1 c2 : Conn) (p : ℚ)
    (h1 : c1 ∈ subsOf R s1) (h2 : c2 ∈ subsOf R s2)
    (hf1 : fetch s1 = some p) (hf2 : fetch s2 = none) :
    (⟨c1, ⟨s1, some p, ts⟩⟩ : Sent) ∈ (tick fetch (fun _ => false) ts R).sent ∧
    (⟨c2, ⟨s2, none, ts⟩⟩ : Sent) ∈ (tick fetch (fun _ => false) ts R).sent := by
  constructor
  · have hmem := tick_nodead_mem_sent fetch ts R h1
    rwa [hf1] at hmem
  · have hmem := tick_nodead_mem_sent fetch ts R h2
    rwa [hf2] at hmem

theorem tick_isolates_fetch_failure_witness :
    (0 : Conn) ∈ subsOf regAB "AAPL" ∧ (1 : Conn) ∈ subsOf regAB "MSFT" ∧
    (fun s => if s = "AAPL" then some (1 : ℚ) else none) "AAPL" = some (1 : ℚ) ∧
    (fun s => if s = "AAPL" then some (1 : ℚ) else none) "MSFT" = none ∧
    ((⟨0, ⟨"AAPL", some 1, 7⟩⟩ : Sent) ∈
      (tick (fun s => if s = "AAPL" then some (1 : ℚ) else none)
        (fun _ => false) 7 regAB).sent ∧
    (⟨1, ⟨"MSFT", none, 7⟩⟩ : Sent) ∈
      (tick (fun s => if s = "AAPL" then some (1 : ℚ) else none)
        (fun _ => false) 7 regAB).sent) :=
  ⟨by decide, by decide, by decide, by decide,
    tick_isolates_fetch_failure _ 7 regAB "AAPL" "MSFT" 0 1 1
      (by decide) (by decide) (by decide) (by decide)⟩

/-- C5: For every inbound message that is malformed JSON, a subscribe
command with a missing or empty symbol, or an unknown action, the
session replies with an error message (after which its receive loop
continues, so the connection remains open) and the registry is
entirely unchanged — in particular the connection keeps whatever
subscription it had before. -/
theorem bad_message_keeps_state_and_connection (R : Registry) (c : Conn)
    (m : Option JVal) (h : MalformedOrBadCmd m) :
    (sessionStep R c m).1 = R ∧ (sessionStep R c m).2.isErr = true := by
  rcases h with rfl | ⟨fields, rfl, ha, hs⟩ | ⟨fields, rfl, ha⟩
  · exact ⟨rfl, rfl⟩
  · rcases hs with hs | hs
    · simp [sessionStep, ha, hs, SessionOut.isErr]
    · simp [sessionStep, ha, hs, jtruthy, SessionOut.isErr]
  · rcases hl : alook fields "action" with _ | v
    · simp [sessionStep, hl, SessionOut.isErr]
    · cases v with
      | jnull => simp [sessionStep, hl, SessionOut.isErr]
      | jbool b => simp [sessionStep, hl, SessionOut.isErr]
      | jnum q => simp [sessionStep, hl, SessionOut.isErr]
      | jarr xs => simp [sessionStep, hl, SessionOut.isErr]
      | jobj fs => simp [sessionStep, hl, SessionOut.isErr]
      | jstr a =>
        have hne : ¬ a = "subscribe" := by
          intro hsub
          exact ha (by rw [hl, hsub])
        simp [sessionStep, hl, hne, SessionOut.isErr]

theorem bad_message_keeps_state_and_connection_witness :
    MalformedOrBadCmd none ∧
    ((sessionStep regA 0 none).1 = regA ∧
      (sessionStep regA 0 none).2.isErr = true) :=
  ⟨Or.inl rfl, bad_message_keeps_state_and_connection regA 0 none (Or.inl rfl)⟩

/-- C6: Subscribe is idempotent: subscribing the same connection to the
same (valid, non-empty) symbol twice in a row leaves the registry —
both `subscriptions` and `ws_to_symbol` — in a state identical to
subscribing once. -/
theorem subscribe_idempotent (R : Registry) (c : Conn) (s : Sym) (hs : s ≠ "") :
    subscribeReg (subscribeReg R c s) c s = subscribeReg R c s := by
  have hws : (subscribeReg R c s).ws_to_symbol = dset R.ws_to_symbol c (some s) := rfl
  have hsubs : (subscribeReg R c s).subscriptions =
      dupdate ∅ (discardPrev R.subscriptions c (pyGet R.ws_to_symbol c)) s
        (fun t => insert c t) := rfl
  have hpg : pyGet (subscribeReg R c s).ws_to_symbol c = some s := by
    rw [hws, pyGet_dset_self]
  have step1 : subscribeReg (subscribeReg R c s) c s =
      { subscriptions := dupdate ∅ (dupdate ∅ (subscribeReg R c s).subscriptions s
          (fun t => t.erase c)) s (fun t => insert c t),
        ws_to_symbol := dset (subscribeReg R c s).ws_to_symbol c (some s) } := by
    show Registry.mk (dupdate ∅ (discardPrev (subscribeReg R c s).subscriptions c
        (pyGet (subscribeReg R c s).ws_to_symbol c)) s (fun t => insert c t)) _ = _
    rw [hpg, discardPrev_some _ _ hs]
  rw [step1, hws, dset_dset, hsubs, dupdate_dupdate, dupdate_dupdate]
  have hfg : (fun v : Finset Conn => insert c ((insert c v).erase c)) =
      (fun t : Finset Conn => insert c t) := by
    funext v
    exact Finset.insert_erase (Finset.mem_insert_self c v)
  show Registry.mk _ _ = Registry.mk _ _
  congr 1
  rw [hfg]

theorem subscribe_idempotent_witness :
    ("AAPL" : Sym) ≠ "" ∧
    subscribeReg (subscribeReg (acceptConn emptyRegistry 0) 0 "AAPL") 0 "AAPL" =
      subscribeReg (acceptConn emptyRegistry 0) 0 "AAPL" :=
  ⟨by decide, subscribe_idempotent (acceptConn emptyRegistry 0) 0 "AAPL" (by decide)⟩

/-- C7: Re-subscribing replaces: if connection `c` is currently mapped
to symbol `A`, then subscribing `c` to a different symbol `B` removes
`c` from `A`'s subscriber set, adds it to `B`'s set, and maps `c` to
`B`; afterwards `A`'s set does not contain `c`. -/
theorem subscribe_replaces (R : Registry) (c : Conn) (A B : Sym)
    (hA : pyGet R.ws_to_symbol c = some A) (hAne : A ≠ "") (hBA : B ≠ A) :
    c ∉ subsOf (subscribeReg R c B) A ∧
    c ∈ subsOf (subscribeReg R c B) B ∧
    pyGet (subscribeReg R c B).ws_to_symbol c = some B := by
  have hsubs : (subscribeReg R c B).subscriptions =
      dupdate ∅ (dupdate ∅ R.subscriptions A (fun t => t.erase c)) B
        (fun t => insert c t) := by
    show dupdate ∅ (discardPrev R.subscriptions c (pyGet R.ws_to_symbol c)) B
        (fun t => insert c t) = _
    rw [hA, discardPrev_some _ _ hAne]
  refine ⟨?_, ?_, ?_⟩
  · rw [subsOf_eq_fget, hsubs, fget_dupdate_ne _ _ _ _ (fun h => hBA h.symm),
      fget_dupdate_self]
    simp
  · rw [subsOf_eq_fget, hsubs, fget_dupdate_self]
    exact Finset.mem_insert_self c _
  · show pyGet (dset R.ws_to_symbol c (some B)) c = some B
    rw [pyGet_dset_self]

theorem subscribe_replaces_witness :
    pyGet regA.ws_to_symbol 0 = some "AAPL" ∧ ("AAPL" : Sym) ≠ "" ∧
    ("MSFT" : Sym) ≠ "AAPL" ∧
    ((0 : Conn) ∉ subsOf (subscribeReg regA 0 "MSFT") "AAPL" ∧
      (0 : Conn) ∈ subsOf (subscribeReg regA 0 "MSFT") "MSFT" ∧
      pyGet (subscribeReg regA 0 "MSFT").ws_to_symbol 0 = some "MSFT") :=
  ⟨by decide, by decide, by decide,
    subscribe_replaces regA 0 "AAPL" "MSFT" (by decide) (by decide) (by decide)⟩

/-- C8: Fan-out correctness: in a tick, every connection subscribed to
a symbol `s` is sent the payload `{symbol := s, price := fetch s,
ts := ts}`, and every message delivered for symbol `s` in that tick
carries exactly that payload — all subscribers of `s` receive
identical payload content, produced once per symbol from the single
provider result. -/
theorem fanout_identical_payloads (fetch : Sym → Option ℚ) (ts : Int)
    (R : Registry) (s : Sym) (c : Conn) (h : c ∈ subsOf R s) :
    (⟨c, ⟨s, fetch s, ts⟩⟩ : Sent) ∈ (tick fetch (fun _ => false) ts R).sent ∧
    ∀ m ∈ (tick fetch (fun _ => false) ts R).sent,
      m.payload.symbol = s → m.payload = ⟨s, fetch s, ts⟩ := by
  refine ⟨tick_nodead_mem_sent fetch ts R h, ?_⟩
  intro m hm hsym
  have h2 := tick_nodead_sent_shape fetch ts R hm
  rw [hsym] at h2
  exact h2

theorem fanout_identical_payloads_witness :
    (0 : Conn) ∈ subsOf regAA "AAPL" ∧
    ((⟨0, ⟨"AAPL", some 2, 5⟩⟩ : Sent) ∈
      (tick (fun _ => some (2 : ℚ)) (fun _ => false) 5 regAA).sent ∧
    ∀ m ∈ (tick (fun _ => some (2 : ℚ)) (fun _ => false) 5 regAA).sent,
      m.payload.symbol = "AAPL" → m.payload = ⟨"AAPL", some 2, 5⟩) :=
  ⟨by decide,
    fanout_identical_payloads (fun _ => some (2 : ℚ)) 5 regAA "AAPL" 0 (by decide)⟩

/-- C9: The key set of `subscriptions` never shrinks: no registry
operation deletes a symbol key (cleanup only discards connections from
the key's set), the delivery-failure cleanups inside a tick preserve
all keys, and a key always appears in the snapshot the poll loop
iterates (its list of Quote Provider calls).  Hence once a symbol has
been subscribed it is polled on every subsequent tick, even with all
of its subscribers gone. -/
theorem symbol_keys_never_removed :
    (∀ R R' : Registry, Step R R' → ∀ s ∈ symsList R, s ∈ symsList R') ∧
    (∀ (fetch : Sym → Option ℚ) (dead : Conn → Bool) (ts : Int) (R : Registry),
      ∀ s ∈ symsList R, s ∈ symsList (tick fetch dead ts R).reg) ∧
    (∀ (fetch : Sym → Option ℚ) (dead : Conn → Bool) (ts : Int) (R : Registry),
      ∀ s ∈ symsList R, s ∈ (tick fetch dead ts R).calls) := by
  refine ⟨fun R R' h s hs => symsList_step_mono h hs,
    fun fetch dead ts R s hs => tick_keys_mono fetch dead ts R hs,
    fun fetch dead ts R s hs => ?_⟩
  rw [tick_calls]
  exact hs

theorem symbol_keys_never_removed_witness :
    Step regA (disconnectCleanup regA 0) ∧ "AAPL" ∈ symsList regA ∧
    "AAPL" ∈ symsList (disconnectCleanup regA 0) ∧
    "AAPL" ∈ (tick (fun _ => some 1) (fun _ => false) 0 regEmptyAAPL).calls :=
  ⟨Step.disconnect regA 0, by decide,
    symbol_keys_never_removed.1 regA (disconnectCleanup regA 0)
      (Step.disconnect regA 0) "AAPL" (by decide),
    (symbol_keys_never_removed.2.2 (fun _ => some 1) (fun _ => false) 0
      regEmptyAAPL) "AAPL" (by decide)⟩

/-- C10: The price-fetch helper is total at its interface: whatever the
intraday history fetch and the `ticker.info` read do — raise, or return
any values — `get_latest_price_sync` returns normally with a float or
`None` and never propagates an exception: the intraday branch swallows
its exceptions with `pass`, the info-fallback branch turns its
exceptions into `return None`. -/
theorem get_latest_price_sync_total (fetch : Except Unit (List ℚ))
    (info : Except Unit (Option ℚ × Option ℚ)) :
    ∃ v : Option ℚ, get_latest_price_sync fetch info = Except.ok v := by
  cases h1 : intradayBranch fetch with
  | error e =>
    cases h2 : infoBranch info with
    | error e2 => exact ⟨none, by simp [get_latest_price_sync, h1, h2]⟩
    | ok v => exact ⟨v, by simp [get_latest_price_sync, h1, h2]⟩
  | ok v =>
    cases v with
    | some p => exact ⟨some p, by simp [get_latest_price_sync, h1]⟩
    | none =>
      cases h2 : infoBranch info with
      | error e2 => exact ⟨none, by simp [get_latest_price_sync, h1, h2]⟩
      | ok w => exact ⟨w, by simp [get_latest_price_sync, h1, h2]⟩

end StockVibe
